import Mathlib

/-!
# KI ENGINE: per-eye projection, view matrix and OpenXR frame loop

A shallow embedding of `KI_ENGINE/Project_KI_ENGINE/main.cpp`.

* `xrProj` is the function of the same name (lines 92-111).  Floats are read as
  elements of a linearly ordered field `K` (exact arithmetic) and the C library
  function `tanf` is a parameter.  `xrProjIEEE` is the same function with the
  float divisions by zero followed (infinity, NaN); the two agree wherever no
  divisor is zero.
* `glm.*` transcribe the functions of the GLM header library that the eye loop
  calls (`translate`, `mat4_cast`, `inverse`, the `mat4` products).  GLM stores a
  `mat4` as four column vectors, `m[c][r]` being column `c`, row `r`.
* `renderEyes`, `frame`, `mainLoop` are the `for` loop over the eyes, one
  iteration of the `while` loop, and the `while` loop (lines 252-339), written
  as functions from the answers of the OpenXR runtime to the sequence of
  runtime and draw calls that the program performs.
-/

namespace KIEngine

/-! ## GLM vectors and matrices -/

namespace glm

/-- GLM `vec3`. -/
@[ext] structure Vec3 (K : Type) where
  x : K
  y : K
  z : K
  deriving DecidableEq

/-- GLM `vec4`. -/
@[ext] structure Vec4 (K : Type) where
  x : K
  y : K
  z : K
  w : K
  deriving DecidableEq

/-- GLM `quat`; the constructor used by the program is `quat(w, x, y, z)`. -/
@[ext] structure Quat (K : Type) where
  w : K
  x : K
  y : K
  z : K
  deriving DecidableEq

/-- GLM `mat4`: four columns, `c0 = m[0]`, ..., `c3 = m[3]`; `m[c][r]` is
component `r` of column `c`. -/
@[ext] structure Mat4 (K : Type) where
  c0 : Vec4 K
  c1 : Vec4 K
  c2 : Vec4 K
  c3 : Vec4 K
  deriving DecidableEq

variable {K : Type}

/-- Componentwise `vec4 + vec4`. -/
def Vec4.add [Add K] (a b : Vec4 K) : Vec4 K :=
  ⟨a.x + b.x, a.y + b.y, a.z + b.z, a.w + b.w⟩

/-- Componentwise `vec4 - vec4`. -/
def Vec4.sub [Sub K] (a b : Vec4 K) : Vec4 K :=
  ⟨a.x - b.x, a.y - b.y, a.z - b.z, a.w - b.w⟩

/-- Componentwise `vec4 * vec4`. -/
def Vec4.mul [Mul K] (a b : Vec4 K) : Vec4 K :=
  ⟨a.x * b.x, a.y * b.y, a.z * b.z, a.w * b.w⟩

/-- The product `vec4 * scalar`. -/
def Vec4.smul [Mul K] (a : Vec4 K) (s : K) : Vec4 K :=
  ⟨a.x * s, a.y * s, a.z * s, a.w * s⟩

/-- The matrix `mat4(s)`: `s` on the diagonal, zero elsewhere. -/
def Mat4.diag [Zero K] (s : K) : Mat4 K :=
  ⟨⟨s, 0, 0, 0⟩, ⟨0, s, 0, 0⟩, ⟨0, 0, s, 0⟩, ⟨0, 0, 0, s⟩⟩

/-- The identity `mat4(1)`. -/
def Mat4.one [Zero K] [One K] : Mat4 K := Mat4.diag 1

/-- GLM `operator*(mat4, vec4)`:
`m[0] * v[0] + m[1] * v[1] + m[2] * v[2] + m[3] * v[3]`, grouped as GLM does. -/
def Mat4.mulVec [Add K] [Mul K] (m : Mat4 K) (v : Vec4 K) : Vec4 K :=
  ((m.c0.smul v.x).add (m.c1.smul v.y)).add ((m.c2.smul v.z).add (m.c3.smul v.w))

/-- GLM `operator*(mat4, mat4)`: column `j` of the product is
`m1[0] * m2[j][0] + m1[1] * m2[j][1] + m1[2] * m2[j][2] + m1[3] * m2[j][3]`. -/
def Mat4.mul [Add K] [Mul K] (m1 m2 : Mat4 K) : Mat4 K :=
  let col (b : Vec4 K) : Vec4 K :=
    (((m1.c0.smul b.x).add (m1.c1.smul b.y)).add (m1.c2.smul b.z)).add (m1.c3.smul b.w)
  ⟨col m2.c0, col m2.c1, col m2.c2, col m2.c3⟩

/-- The product `mat4 * scalar`. -/
def Mat4.smul [Mul K] (m : Mat4 K) (s : K) : Mat4 K :=
  ⟨m.c0.smul s, m.c1.smul s, m.c2.smul s, m.c3.smul s⟩

/-- GLM `translate(m, v)`: `Result = m;
Result[3] = m[0] * v[0] + m[1] * v[1] + m[2] * v[2] + m[3]`. -/
def translate [Add K] [Mul K] (m : Mat4 K) (v : Vec3 K) : Mat4 K :=
  { m with c3 := (((m.c0.smul v.x).add (m.c1.smul v.y)).add (m.c2.smul v.z)).add m.c3 }

/-- GLM `mat4_cast(q)`, that is `mat4(mat3_cast(q))`: the rotation matrix of the
quaternion, extended by the identity in the fourth row and column. -/
def mat4_cast [Ring K] (q : Quat K) : Mat4 K :=
  let qxx := q.x * q.x
  let qyy := q.y * q.y
  let qzz := q.z * q.z
  let qxz := q.x * q.z
  let qxy := q.x * q.y
  let qyz := q.y * q.z
  let qwx := q.w * q.x
  let qwy := q.w * q.y
  let qwz := q.w * q.z
  ⟨⟨1 - 2 * (qyy + qzz), 2 * (qxy + qwz), 2 * (qxz - qwy), 0⟩,
   ⟨2 * (qxy - qwz), 1 - 2 * (qxx + qzz), 2 * (qyz + qwx), 0⟩,
   ⟨2 * (qxz + qwy), 2 * (qyz - qwx), 1 - 2 * (qxx + qyy), 0⟩,
   ⟨0, 0, 0, 1⟩⟩

/-- The four columns `Inv0 * SignA, Inv1 * SignB, Inv2 * SignA, Inv3 * SignB` that
GLM `inverse(mat4)` builds before the division by the determinant (the matrix of
cofactors, transposed). -/
def inverseCofactors [Ring K] (m : Mat4 K) : Mat4 K :=
  let coef00 := m.c2.z * m.c3.w - m.c3.z * m.c2.w
  let coef02 := m.c1.z * m.c3.w - m.c3.z * m.c1.w
  let coef03 := m.c1.z * m.c2.w - m.c2.z * m.c1.w
  let coef04 := m.c2.y * m.c3.w - m.c3.y * m.c2.w
  let coef06 := m.c1.y * m.c3.w - m.c3.y * m.c1.w
  let coef07 := m.c1.y * m.c2.w - m.c2.y * m.c1.w
  let coef08 := m.c2.y * m.c3.z - m.c3.y * m.c2.z
  let coef10 := m.c1.y * m.c3.z - m.c3.y * m.c1.z
  let coef11 := m.c1.y * m.c2.z - m.c2.y * m.c1.z
  let coef12 := m.c2.x * m.c3.w - m.c3.x * m.c2.w
  let coef14 := m.c1.x * m.c3.w - m.c3.x * m.c1.w
  let coef15 := m.c1.x * m.c2.w - m.c2.x * m.c1.w
  let coef16 := m.c2.x * m.c3.z - m.c3.x * m.c2.z
  let coef18 := m.c1.x * m.c3.z - m.c3.x * m.c1.z
  let coef19 := m.c1.x * m.c2.z - m.c2.x * m.c1.z
  let coef20 := m.c2.x * m.c3.y - m.c3.x * m.c2.y
  let coef22 := m.c1.x * m.c3.y - m.c3.x * m.c1.y
  let coef23 := m.c1.x * m.c2.y - m.c2.x * m.c1.y
  let fac0 : Vec4 K := ⟨coef00, coef00, coef02, coef03⟩
  let fac1 : Vec4 K := ⟨coef04, coef04, coef06, coef07⟩
  let fac2 : Vec4 K := ⟨coef08, coef08, coef10, coef11⟩
  let fac3 : Vec4 K := ⟨coef12, coef12, coef14, coef15⟩
  let fac4 : Vec4 K := ⟨coef16, coef16, coef18, coef19⟩
  let fac5 : Vec4 K := ⟨coef20, coef20, coef22, coef23⟩
  let vec0 : Vec4 K := ⟨m.c1.x, m.c0.x, m.c0.x, m.c0.x⟩
  let vec1 : Vec4 K := ⟨m.c1.y, m.c0.y, m.c0.y, m.c0.y⟩
  let vec2 : Vec4 K := ⟨m.c1.z, m.c0.z, m.c0.z, m.c0.z⟩
  let vec3 : Vec4 K := ⟨m.c1.w, m.c0.w, m.c0.w, m.c0.w⟩
  let inv0 := ((vec1.mul fac0).sub (vec2.mul fac1)).add (vec3.mul fac2)
  let inv1 := ((vec0.mul fac0).sub (vec2.mul fac3)).add (vec3.mul fac4)
  let inv2 := ((vec0.mul fac1).sub (vec1.mul fac3)).add (vec3.mul fac5)
  let inv3 := ((vec0.mul fac2).sub (vec1.mul fac4)).add (vec2.mul fac5)
  let signA : Vec4 K := ⟨1, -1, 1, -1⟩
  let signB : Vec4 K := ⟨-1, 1, -1, 1⟩
  ⟨inv0.mul signA, inv1.mul signB, inv2.mul signA, inv3.mul signB⟩

/-- The determinant as GLM `inverse(mat4)` computes it: `Dot0 = m[0] * Row0` with
`Row0` the first row of the cofactor columns, `Dot1 = (Dot0.x + Dot0.y) +
(Dot0.z + Dot0.w)`. -/
def inverseDot1 [Ring K] (m : Mat4 K) : K :=
  let inv := inverseCofactors m
  let row0 : Vec4 K := ⟨inv.c0.x, inv.c1.x, inv.c2.x, inv.c3.x⟩
  let dot0 := m.c0.mul row0
  (dot0.x + dot0.y) + (dot0.z + dot0.w)

/-- GLM `inverse(mat4)`: `Inverse * OneOverDeterminant` with
`OneOverDeterminant = 1 / Dot1`. -/
def inverse [Field K] (m : Mat4 K) : Mat4 K :=
  let oneOverDeterminant := 1 / inverseDot1 m
  (inverseCofactors m).smul oneOverDeterminant

end glm

open glm

/-! ## Projection and view matrices -/

/-- OpenXR `XrFovf`: the four half-angles of an eye's field of view. -/
structure XrFovf (K : Type) where
  angleLeft : K
  angleRight : K
  angleUp : K
  angleDown : K
  deriving DecidableEq

variable {K : Type}

/-- The constant `nearZ = 0.1f` of `xrProj`. -/
def nearZ [Field K] : K := 0.1

/-- The constant `farZ = 50.0f` of `xrProj`. -/
def farZ [Field K] : K := 50.0

/-- The function `xrProj` of `main.cpp`; `tanf` is the C tangent function. -/
def xrProj [Field K] (tanf : K → K) (f : XrFovf K) : Mat4 K :=
  let tanLeft := tanf f.angleLeft
  let tanRight := tanf f.angleRight
  let tanUp := tanf f.angleUp
  let tanDown := tanf f.angleDown
  let tanWidth := tanRight - tanLeft
  let tanHeight := tanUp - tanDown
  { c0 := ⟨2 / tanWidth, 0, 0, 0⟩
    c1 := ⟨0, 2 / tanHeight, 0, 0⟩
    c2 := ⟨(tanRight + tanLeft) / tanWidth, (tanUp + tanDown) / tanHeight,
           -(farZ + nearZ) / (farZ - nearZ), -1⟩
    c3 := ⟨0, 0, -(2 * farZ * nearZ) / (farZ - nearZ), 0⟩ }

/-- The value of a float expression when divisions by zero are followed: a number,
an infinity, or NaN. -/
inductive FloatVal (K : Type) where
  | finite (x : K)
  | infinite
  | nan
  deriving DecidableEq

/-- Float division `a / b` as IEEE 754 defines it at a zero divisor: the quotient
when `b` is not zero, an infinity when `b` is zero and `a` is not, NaN for
`0 / 0`.  (Rounding and the sign of the infinity are not modelled.) -/
def fdiv [Field K] [DecidableEq K] (a b : K) : FloatVal K :=
  if b = 0 then (if a = 0 then FloatVal.nan else FloatVal.infinite)
  else FloatVal.finite (a / b)

/-- A function applied to the four components of a `vec4`. -/
def glm.Vec4.map {L : Type} (g : K → L) (v : Vec4 K) : Vec4 L :=
  ⟨g v.x, g v.y, g v.z, g v.w⟩

/-- A function applied to the sixteen entries of a `mat4`. -/
def glm.Mat4.map {L : Type} (g : K → L) (m : Mat4 K) : Mat4 L :=
  ⟨m.c0.map g, m.c1.map g, m.c2.map g, m.c3.map g⟩

/-- The function `xrProj` of `main.cpp` again, line for line, with each of its six
divisions (lines 103, 104, 105, 106, 107, 109) performed by `fdiv`, so that the
entries show what the float divisions return when `tanWidth` or `tanHeight` is
zero.  The function has no branch: it returns this matrix on every input. -/
def xrProjIEEE [Field K] [DecidableEq K] (tanf : K → K) (f : XrFovf K) : Mat4 (FloatVal K) :=
  let tanLeft := tanf f.angleLeft
  let tanRight := tanf f.angleRight
  let tanUp := tanf f.angleUp
  let tanDown := tanf f.angleDown
  let tanWidth := tanRight - tanLeft
  let tanHeight := tanUp - tanDown
  let zero : FloatVal K := FloatVal.finite 0
  { c0 := ⟨fdiv 2 tanWidth, zero, zero, zero⟩
    c1 := ⟨zero, fdiv 2 tanHeight, zero, zero⟩
    c2 := ⟨fdiv (tanRight + tanLeft) tanWidth, fdiv (tanUp + tanDown) tanHeight,
           fdiv (-(farZ + nearZ)) (farZ - nearZ), FloatVal.finite (-1)⟩
    c3 := ⟨zero, zero, fdiv (-(2 * farZ * nearZ)) (farZ - nearZ), zero⟩ }

/-- The eye's world transform `translate(mat4(1), p) * mat4_cast(q)` of line 299. -/
def eyeWorld [Ring K] (q : Quat K) (p : Vec3 K) : Mat4 K :=
  (translate Mat4.one p).mul (mat4_cast q)

/-- The view matrix `V = inverse(translate(mat4(1), p) * mat4_cast(q))` of the eye
loop (lines 298-299). -/
def viewMatrix [Field K] (q : Quat K) (p : Vec3 K) : Mat4 K :=
  inverse (eyeWorld q p)

/-! ## OpenXR records used by the frame loop -/

/-- OpenXR `XrQuaternionf`. -/
structure XrQuaternionf (K : Type) where
  x : K
  y : K
  z : K
  w : K
  deriving DecidableEq

/-- OpenXR `XrVector3f`. -/
structure XrVector3f (K : Type) where
  x : K
  y : K
  z : K
  deriving DecidableEq

/-- OpenXR `XrPosef`. -/
structure XrPosef (K : Type) where
  orientation : XrQuaternionf K
  position : XrVector3f K
  deriving DecidableEq

/-- OpenXR `XrView`: what `xrLocateViews` reports for one eye. -/
structure XrView (K : Type) where
  pose : XrPosef K
  fov : XrFovf K
  deriving DecidableEq

/-- OpenXR `XrOffset2Di`. -/
structure XrOffset2Di where
  x : Int
  y : Int
  deriving DecidableEq

/-- OpenXR `XrExtent2Di`. -/
structure XrExtent2Di where
  width : Int
  height : Int
  deriving DecidableEq

/-- OpenXR `XrRect2Di`. -/
structure XrRect2Di where
  offset : XrOffset2Di
  extent : XrExtent2Di
  deriving DecidableEq

/-- OpenXR `XrSwapchainSubImage`; `swapchain` is the handle. -/
structure XrSwapchainSubImage where
  swapchain : Nat
  imageRect : XrRect2Di
  imageArrayIndex : Nat
  deriving DecidableEq

/-- OpenXR `XrCompositionLayerProjectionView`. -/
structure XrCompositionLayerProjectionView (K : Type) where
  pose : XrPosef K
  fov : XrFovf K
  subImage : XrSwapchainSubImage
  deriving DecidableEq

/-- OpenXR `XrCompositionLayerProjection`; `views` is the array that the pointer
`layer.views` designates, of which the runtime reads the first `viewCount`
entries. -/
structure XrCompositionLayerProjection (K : Type) where
  space : Nat
  viewCount : Nat
  views : List (XrCompositionLayerProjectionView K)
  deriving DecidableEq

/-- OpenXR `XrFrameEndInfo`; `layers` is the array `arr` of line 331. -/
structure XrFrameEndInfo (K : Type) where
  displayTime : Int
  layerCount : Nat
  layers : List (XrCompositionLayerProjection K)
  deriving DecidableEq

/-- OpenXR `XrFrameState`, filled in by `xrWaitFrame`. -/
structure XrFrameState where
  predictedDisplayTime : Int
  shouldRender : Bool
  deriving DecidableEq

/-- The calls of the frame loop that reach the OpenXR runtime or write into a
swapchain image, with the values passed to or returned from them. -/
inductive Call (K : Type) where
  | xrWaitFrame (fs : XrFrameState)
  | xrBeginFrame
  | xrLocateViews (displayTime : Int) (outCount : Nat)
  | xrAcquireSwapchainImage (idx : Nat)
  | xrWaitSwapchainImage
  | glFramebufferTextureLayer (image : Nat) (layer : Nat)
  | glClear
  | glDrawElements
  | xrReleaseSwapchainImage
  | xrEndFrame (fei : XrFrameEndInfo K)
  deriving DecidableEq

/-- What was fixed before the loop starts: `viewCount`, the recommended image
size `W`, `H`, and the handles `sc` and `space`. -/
structure Setup where
  viewCount : Nat
  W : Int
  H : Int
  sc : Nat
  space : Nat
  deriving DecidableEq

/-- What the runtime answers during one iteration of the `while` loop: the frame
state written by `xrWaitFrame`, the count `outCount` and the content of the
buffer `views` after `xrLocateViews`, and the index `idx` that the call of
`xrAcquireSwapchainImage` in the iteration `eye` of the `for` loop returns. -/
structure FrameAnswers (K : Type) where
  fs : XrFrameState
  outCount : Nat
  views : List (XrView K)
  idx : Nat → Nat

/-- A zero-initialised `XrView` (`{ XR_TYPE_VIEW }`). -/
def XrView.zero [Zero K] : XrView K :=
  ⟨⟨⟨0, 0, 0, 0⟩, ⟨0, 0, 0⟩⟩, ⟨0, 0, 0, 0⟩⟩

/-- A zero-initialised `XrCompositionLayerProjectionView`. -/
def XrCompositionLayerProjectionView.zero [Zero K] : XrCompositionLayerProjectionView K :=
  ⟨⟨⟨0, 0, 0, 0⟩, ⟨0, 0, 0⟩⟩, ⟨0, 0, 0, 0⟩, ⟨0, ⟨⟨0, 0⟩, ⟨0, 0⟩⟩, 0⟩⟩

/-- The vector `lviews` as created on line 248: `viewCount` zero-initialised
entries. -/
def lviewsInit [Zero K] (s : Setup) : List (XrCompositionLayerProjectionView K) :=
  List.replicate s.viewCount XrCompositionLayerProjectionView.zero

/-! ## The frame loop -/

/-- The body of the `for` loop for one `eye` (lines 273-320): the calls it makes,
and `lviews` after the assignments to `lviews[eye]`. -/
def eyeBody [Zero K] (s : Setup) (a : FrameAnswers K) (eye : Nat)
    (lviews : List (XrCompositionLayerProjectionView K)) :
    List (Call K) × List (XrCompositionLayerProjectionView K) :=
  let idx := a.idx eye
  let view := a.views.getD eye XrView.zero
  ([Call.xrAcquireSwapchainImage idx,
    Call.xrWaitSwapchainImage,
    Call.glFramebufferTextureLayer idx eye,
    Call.glClear,
    Call.glDrawElements,
    Call.xrReleaseSwapchainImage],
   lviews.set eye
    { pose := view.pose
      fov := view.fov
      subImage :=
        { swapchain := s.sc
          imageRect := { offset := ⟨0, 0⟩, extent := ⟨s.W, s.H⟩ }
          imageArrayIndex := eye } })

/-- The loop `for (eye; eye < outCount; eye++)` with `remaining = outCount - eye`
iterations still to run. -/
def renderEyesFrom [Zero K] (s : Setup) (a : FrameAnswers K) :
    (remaining : Nat) → (eye : Nat) → List (XrCompositionLayerProjectionView K) →
    List (Call K) × List (XrCompositionLayerProjectionView K)
  | 0, _, lviews => ([], lviews)
  | n + 1, eye, lviews =>
    let r := eyeBody s a eye lviews
    let rest := renderEyesFrom s a n (eye + 1) r.2
    (r.1 ++ rest.1, rest.2)

/-- The loop `for (uint32_t eye = 0; eye < outCount; eye++)` of line 272. -/
def renderEyes [Zero K] (s : Setup) (a : FrameAnswers K)
    (lviews : List (XrCompositionLayerProjectionView K)) :
    List (Call K) × List (XrCompositionLayerProjectionView K) :=
  renderEyesFrom s a a.outCount 0 lviews

/-- The record `fei` that the iteration passes to `xrEndFrame` (lines 327-338),
`lviews` being the vector after the eye loop. -/
def frameEndInfo (s : Setup) (a : FrameAnswers K)
    (lviews : List (XrCompositionLayerProjectionView K)) : XrFrameEndInfo K :=
  let layer : XrCompositionLayerProjection K :=
    { space := s.space, viewCount := a.outCount, views := lviews }
  { displayTime := a.fs.predictedDisplayTime, layerCount := 1, layers := [layer] }

/-- One iteration of the `while` loop (lines 253-339; the mirror pass and the FPS
counter, which make no runtime call and do not write to the swapchain, are left
out): the calls made and `lviews` afterwards. -/
def frame [Zero K] (s : Setup) (a : FrameAnswers K)
    (lviews : List (XrCompositionLayerProjectionView K)) :
    List (Call K) × List (XrCompositionLayerProjectionView K) :=
  let r := renderEyes s a lviews
  ([Call.xrWaitFrame a.fs, Call.xrBeginFrame,
    Call.xrLocateViews a.fs.predictedDisplayTime a.outCount]
    ++ r.1 ++ [Call.xrEndFrame (frameEndInfo s a r.2)], r.2)

/-- The `while` loop of line 252, run for one iteration per element of `answers`
(the window is closed after the last one). -/
def mainLoop [Zero K] (s : Setup) :
    List (FrameAnswers K) → List (XrCompositionLayerProjectionView K) → List (Call K)
  | [], _ => []
  | a :: rest, lviews =>
    let r := frame s a lviews
    r.1 ++ mainLoop s rest r.2

/-- The calls of the program from the first iteration of the main loop on. -/
def run [Zero K] (s : Setup) (answers : List (FrameAnswers K)) : List (Call K) :=
  mainLoop s answers (lviewsInit s)

/-! ## Observations on a sequence of calls -/

/-- The records submitted through `xrEndFrame`, in order. -/
def submissions : List (Call K) → List (XrFrameEndInfo K)
  | [] => []
  | Call.xrEndFrame fei :: cs => fei :: submissions cs
  | _ :: cs => submissions cs

/-- The frame states returned by `xrWaitFrame`, in order. -/
def waits : List (Call K) → List XrFrameState
  | [] => []
  | Call.xrWaitFrame fs :: cs => fs :: waits cs
  | _ :: cs => waits cs

/-- The pairs (swapchain image, array layer) bound as colour target by
`glFramebufferTextureLayer`, in order. -/
def colourTargets : List (Call K) → List (Nat × Nat)
  | [] => []
  | Call.glFramebufferTextureLayer image layer :: cs => (image, layer) :: colourTargets cs
  | _ :: cs => colourTargets cs

/-- Whether the call is `xrAcquireSwapchainImage`. -/
def Call.isAcquire : Call K → Bool
  | Call.xrAcquireSwapchainImage _ => true
  | _ => false

/-- Whether the call is `xrReleaseSwapchainImage`. -/
def Call.isRelease : Call K → Bool
  | Call.xrReleaseSwapchainImage => true
  | _ => false

/-- The number of images acquired and not yet released after the calls `cs`. -/
def outstanding (cs : List (Call K)) : Int :=
  (cs.countP Call.isAcquire : Int) - (cs.countP Call.isRelease : Int)

/-! ## The swapchain protocol, as an automaton

This definition follows the wording of the specification (acquire, then
waitReady, then draw, then release; nothing outstanding at submission); it is
what the calls of `mainLoop` are checked against. -/

/-- Where the swapchain stands: no image held, an image acquired but not yet
waited for, or an image waited for and writable. -/
inductive Phase where
  | idle
  | acquired (idx : Nat)
  | ready (idx : Nat)
  deriving DecidableEq

/-- State of the protocol monitor: the phase, the number `eye` of images
released since `xrBeginFrame`, the colour target bound last, and whether the
held image has been drawn into. -/
structure Monitor where
  phase : Phase
  eye : Nat
  target : Option (Nat × Nat)
  drawn : Bool
  deriving DecidableEq

/-- The monitor before the first call. -/
def Monitor.init : Monitor := ⟨Phase.idle, 0, none, false⟩

/-- One step of the monitor; `none` is a protocol violation.  Acquire needs the
idle phase, wait an acquired image, clear and draw a waited image that is bound
with array layer `eye`, release a waited image that was drawn into, and
`xrBeginFrame`, `xrEndFrame` the idle phase. -/
def Monitor.step (m : Monitor) : Call K → Option Monitor
  | Call.xrBeginFrame =>
    match m.phase with
    | Phase.idle => some { m with eye := 0 }
    | _ => none
  | Call.xrAcquireSwapchainImage idx =>
    match m.phase with
    | Phase.idle => some { m with phase := Phase.acquired idx, drawn := false }
    | _ => none
  | Call.xrWaitSwapchainImage =>
    match m.phase with
    | Phase.acquired idx => some { m with phase := Phase.ready idx }
    | _ => none
  | Call.glFramebufferTextureLayer image layer => some { m with target := some (image, layer) }
  | Call.glClear =>
    match m.phase with
    | Phase.ready idx => if m.target = some (idx, m.eye) then some m else none
    | _ => none
  | Call.glDrawElements =>
    match m.phase with
    | Phase.ready idx => if m.target = some (idx, m.eye) then some { m with drawn := true } else none
    | _ => none
  | Call.xrReleaseSwapchainImage =>
    match m.phase with
    | Phase.ready _ => if m.drawn then some { m with phase := Phase.idle, eye := m.eye + 1 } else none
    | _ => none
  | Call.xrEndFrame _ =>
    match m.phase with
    | Phase.idle => some m
    | _ => none
  | _ => some m

/-- The monitor run over a sequence of calls. -/
def Monitor.run (m : Monitor) : List (Call K) → Option Monitor
  | [] => some m
  | c :: cs =>
    match m.step c with
    | some m1 => Monitor.run m1 cs
    | none => none

/-- The number of images held in a phase. -/
def Phase.held : Phase → Int
  | Phase.idle => 0
  | _ => 1

/-! ## Frame pacing, as an automaton

This definition follows the wording of the specification: each frame is
`waitFrame`, then `beginFrame`, then one `endFrame` that carries the display time
of that `waitFrame` and one layer. -/

/-- Where the frame cycle stands; `t` is the predicted display time returned by
the `xrWaitFrame` of the current frame. -/
inductive Pacing where
  | between
  | waited (t : Int)
  | begun (t : Int)
  deriving DecidableEq

/-- One step of the pacing automaton; `none` is a violation. -/
def Pacing.step : Pacing → Call K → Option Pacing
  | Pacing.between, Call.xrWaitFrame fs => some (Pacing.waited fs.predictedDisplayTime)
  | _, Call.xrWaitFrame _ => none
  | Pacing.waited t, Call.xrBeginFrame => some (Pacing.begun t)
  | _, Call.xrBeginFrame => none
  | Pacing.begun t, Call.xrEndFrame fei =>
    if fei.displayTime = t ∧ fei.layerCount = 1 ∧ fei.layers.length = 1 then some Pacing.between
    else none
  | _, Call.xrEndFrame _ => none
  | p, _ => some p

/-- The pacing automaton run over a sequence of calls. -/
def Pacing.run (p : Pacing) : List (Call K) → Option Pacing
  | [] => some p
  | c :: cs =>
    match p.step c with
    | some p1 => Pacing.run p1 cs
    | none => none

/-- The layer view that the specification asks for eye `e`: pose and field of
view of the located view, the whole image rectangle, array index `e`. -/
def expectedLayerView (s : Setup) (view : XrView K) (e : Nat) :
    XrCompositionLayerProjectionView K :=
  { pose := view.pose
    fov := view.fov
    subImage := ⟨s.sc, ⟨⟨0, 0⟩, ⟨s.W, s.H⟩⟩, e⟩ }

/-! ## Sample inputs -/

/-- A stereo frame: two located views 1/16 apart, and a runtime that hands out
image 0 to the first acquire of the frame and image 1 to the second. -/
def stereoAnswers : FrameAnswers ℚ :=
  { fs := ⟨100, true⟩
    outCount := 2
    views := [⟨⟨⟨0, 0, 0, 1⟩, ⟨-1 / 32, 0, 0⟩⟩, ⟨-1, 1, 1, -1⟩⟩,
              ⟨⟨⟨0, 0, 0, 1⟩, ⟨1 / 32, 0, 0⟩⟩, ⟨-1, 1, 1, -1⟩⟩]
    idx := fun eye => eye }

/-- The stereo frame that follows `stereoAnswers`: a later display time, a false
`shouldRender` flag, and the next two images of the swapchain. -/
def laterAnswers : FrameAnswers ℚ :=
  { stereoAnswers with fs := ⟨111, false⟩, idx := fun eye => eye + 2 }

/-- A stereo setup: two views of 640 by 480. -/
def stereoSetup : Setup := ⟨2, 640, 480, 1, 1⟩

/-! ## The projection matrix -/

theorem nearZ_ne_zero [LinearOrderedField K] : (nearZ : K) ≠ 0 := by
  unfold nearZ; norm_num

theorem farZ_ne_zero [LinearOrderedField K] : (farZ : K) ≠ 0 := by
  unfold farZ; norm_num

theorem farZ_sub_nearZ_ne_zero [LinearOrderedField K] : (farZ : K) - nearZ ≠ 0 := by
  unfold farZ nearZ; norm_num

/-- Claim C1: for every field of view (in particular every one with
`angleRight > angleLeft` and `angleUp > angleDown`), whatever the four tangents
are, the matrix returned by `xrProj` sends every view-space point
`(x, y, -near, 1)` to a clip-space vector with `z / w = -1` and every point
`(x, y, -far, 1)` to one with `z / w = +1`, where `near = 0.1` and `far = 50`. -/
theorem xrProj_depth_range [LinearOrderedField K] (tanf : K → K) (f : XrFovf K) (x y : K) :
    ((xrProj tanf f).mulVec ⟨x, y, -nearZ, 1⟩).z
        / ((xrProj tanf f).mulVec ⟨x, y, -nearZ, 1⟩).w = -1 ∧
    ((xrProj tanf f).mulVec ⟨x, y, -farZ, 1⟩).z
        / ((xrProj tanf f).mulVec ⟨x, y, -farZ, 1⟩).w = 1 := by
  have hn : (nearZ : K) ≠ 0 := nearZ_ne_zero
  have hf : (farZ : K) ≠ 0 := farZ_ne_zero
  have hd : (farZ : K) - nearZ ≠ 0 := farZ_sub_nearZ_ne_zero
  constructor
  · simp only [xrProj, Mat4.mulVec, Vec4.add, Vec4.smul]
    field_simp
    ring
  · simp only [xrProj, Mat4.mulVec, Vec4.add, Vec4.smul]
    field_simp
    ring

/-- Claim C8: when `tanWidth = tan(angleRight) - tan(angleLeft)` and
`tanHeight = tan(angleUp) - tan(angleDown)` are not zero and `d > 0`, the matrix
of `xrProj` sends the points of the four side planes of the frustum at depth `d`
to the edges of clip space: `w = d` for each of them, `x / w = -1` on the left
plane, `x / w = +1` on the right one, `y / w = -1` on the lower one and
`y / w = +1` on the upper one. -/
theorem xrProj_frustum_edges [LinearOrderedField K] (tanf : K → K) (f : XrFovf K) (x y d : K)
    (hw : tanf f.angleRight - tanf f.angleLeft ≠ 0)
    (hh : tanf f.angleUp - tanf f.angleDown ≠ 0) (hd : 0 < d) :
    (((xrProj tanf f).mulVec ⟨tanf f.angleLeft * d, y, -d, 1⟩).w = d ∧
      ((xrProj tanf f).mulVec ⟨tanf f.angleLeft * d, y, -d, 1⟩).x
        / ((xrProj tanf f).mulVec ⟨tanf f.angleLeft * d, y, -d, 1⟩).w = -1) ∧
    (((xrProj tanf f).mulVec ⟨tanf f.angleRight * d, y, -d, 1⟩).w = d ∧
      ((xrProj tanf f).mulVec ⟨tanf f.angleRight * d, y, -d, 1⟩).x
        / ((xrProj tanf f).mulVec ⟨tanf f.angleRight * d, y, -d, 1⟩).w = 1) ∧
    (((xrProj tanf f).mulVec ⟨x, tanf f.angleDown * d, -d, 1⟩).w = d ∧
      ((xrProj tanf f).mulVec ⟨x, tanf f.angleDown * d, -d, 1⟩).y
        / ((xrProj tanf f).mulVec ⟨x, tanf f.angleDown * d, -d, 1⟩).w = -1) ∧
    (((xrProj tanf f).mulVec ⟨x, tanf f.angleUp * d, -d, 1⟩).w = d ∧
      ((xrProj tanf f).mulVec ⟨x, tanf f.angleUp * d, -d, 1⟩).y
        / ((xrProj tanf f).mulVec ⟨x, tanf f.angleUp * d, -d, 1⟩).w = 1) := by
  have hd0 : d ≠ 0 := ne_of_gt hd
  refine ⟨⟨?_, ?_⟩, ⟨?_, ?_⟩, ⟨?_, ?_⟩, ⟨?_, ?_⟩⟩ <;>
    simp only [xrProj, Mat4.mulVec, Vec4.add, Vec4.smul] <;>
    first
      | (field_simp; ring)
      | ring

/-- The tangents of the field of view that opens nothing to the left of the axis,
45 degrees to the right, 45 degrees up and 45 degrees down. -/
theorem tangents_of_sample_fov :
    Real.tan 0 = 0 ∧ Real.tan (Real.pi / 4) = 1 ∧ Real.tan (-(Real.pi / 4)) = -1 :=
  ⟨Real.tan_zero, Real.tan_pi_div_four, by rw [Real.tan_neg, Real.tan_pi_div_four]⟩

/-- Claim C8 at the field of view `(0, pi/4, pi/4, -pi/4)`, the point
`(x, y) = (3, 5)` and the depth `d = 2`. -/
theorem xrProj_frustum_edges_witness :
    (Real.tan (Real.pi / 4) - Real.tan 0 ≠ 0 ∧
      Real.tan (Real.pi / 4) - Real.tan (-(Real.pi / 4)) ≠ 0 ∧ (0 : ℝ) < 2) ∧
    ((xrProj Real.tan ⟨0, Real.pi / 4, Real.pi / 4, -(Real.pi / 4)⟩).mulVec
        ⟨Real.tan 0 * 2, 5, -2, 1⟩).w = 2 ∧
    ((xrProj Real.tan ⟨0, Real.pi / 4, Real.pi / 4, -(Real.pi / 4)⟩).mulVec
        ⟨Real.tan 0 * 2, 5, -2, 1⟩).x
      / ((xrProj Real.tan ⟨0, Real.pi / 4, Real.pi / 4, -(Real.pi / 4)⟩).mulVec
        ⟨Real.tan 0 * 2, 5, -2, 1⟩).w = -1 ∧
    ((xrProj Real.tan ⟨0, Real.pi / 4, Real.pi / 4, -(Real.pi / 4)⟩).mulVec
        ⟨3, Real.tan (Real.pi / 4) * 2, -2, 1⟩).y
      / ((xrProj Real.tan ⟨0, Real.pi / 4, Real.pi / 4, -(Real.pi / 4)⟩).mulVec
        ⟨3, Real.tan (Real.pi / 4) * 2, -2, 1⟩).w = 1 := by
  obtain ⟨t0, t1, t2⟩ := tangents_of_sample_fov
  have hw : Real.tan (Real.pi / 4) - Real.tan 0 ≠ 0 := by rw [t0, t1]; norm_num
  have hh : Real.tan (Real.pi / 4) - Real.tan (-(Real.pi / 4)) ≠ 0 := by rw [t1, t2]; norm_num
  have h := xrProj_frustum_edges Real.tan ⟨0, Real.pi / 4, Real.pi / 4, -(Real.pi / 4)⟩
    3 5 2 hw hh (by norm_num)
  exact ⟨⟨hw, hh, by norm_num⟩, h.1.1, h.1.2, h.2.2.2.2⟩

/-- Claim C9: for every `a` with `tan(a) != 0`, using `tan(-a) = -tan(a)`, the
matrix that `xrProj` returns for the symmetric field of view `(-a, a, a, -a)` has
entries `[0][0]` and `[1][1]` equal to `1 / tan(a)` and entries `[2][0]` and
`[2][1]` equal to 0. -/
theorem xrProj_symmetric [LinearOrderedField K] (tanf : K → K) (a : K)
    (hodd : tanf (-a) = -tanf a) (ha : tanf a ≠ 0) :
    (xrProj tanf ⟨-a, a, a, -a⟩).c0.x = 1 / tanf a ∧
    (xrProj tanf ⟨-a, a, a, -a⟩).c1.y = 1 / tanf a ∧
    (xrProj tanf ⟨-a, a, a, -a⟩).c2.x = 0 ∧
    (xrProj tanf ⟨-a, a, a, -a⟩).c2.y = 0 := by
  have h2 : tanf a - -tanf a = 2 * tanf a := by ring
  simp only [xrProj, hodd, h2]
  refine ⟨?_, ?_, ?_, ?_⟩
  · field_simp
  · field_simp
  · simp
  · simp

/-- Claim C9 in the scenario of the specification: the real tangent and
`a = 0.3`, that is the field of view `(-0.3, 0.3, 0.3, -0.3)`. -/
theorem xrProj_symmetric_witness :
    (Real.tan (-(3 / 10)) = -Real.tan (3 / 10) ∧ Real.tan (3 / 10) ≠ 0) ∧
    (xrProj Real.tan ⟨-(3 / 10), 3 / 10, 3 / 10, -(3 / 10)⟩).c0.x = 1 / Real.tan (3 / 10) ∧
    (xrProj Real.tan ⟨-(3 / 10), 3 / 10, 3 / 10, -(3 / 10)⟩).c1.y = 1 / Real.tan (3 / 10) ∧
    (xrProj Real.tan ⟨-(3 / 10), 3 / 10, 3 / 10, -(3 / 10)⟩).c2.x = 0 ∧
    (xrProj Real.tan ⟨-(3 / 10), 3 / 10, 3 / 10, -(3 / 10)⟩).c2.y = 0 := by
  have hpos : 0 < Real.tan (3 / 10) :=
    Real.tan_pos_of_pos_of_lt_pi_div_two (by norm_num) (by linarith [Real.pi_gt_three])
  exact ⟨⟨Real.tan_neg _, ne_of_gt hpos⟩,
    xrProj_symmetric Real.tan (3 / 10) (Real.tan_neg _) (ne_of_gt hpos)⟩

/-- Where `tanWidth` and `tanHeight` are not zero, the matrix with the float
divisions followed is the matrix of `xrProj`, every entry a number. -/
theorem xrProjIEEE_eq_xrProj [LinearOrderedField K] (tanf : K → K) (f : XrFovf K)
    (hw : tanf f.angleRight - tanf f.angleLeft ≠ 0)
    (hh : tanf f.angleUp - tanf f.angleDown ≠ 0) :
    xrProjIEEE tanf f = (xrProj tanf f).map FloatVal.finite := by
  have hd : (farZ : K) - nearZ ≠ 0 := farZ_sub_nearZ_ne_zero
  simp [xrProjIEEE, xrProj, fdiv, hw, hh, hd, Mat4.map, Vec4.map]

/-- Claim C4, refuted as stated: for the field of view `(0.5, 0.5, 0.4, -0.4)`,
where `angleRight = angleLeft`, `xrProj` does not fail: it divides by
`tanWidth = 0` and returns a matrix whose entries `[0][0]` and `[2][0]` are
infinities. -/
theorem xrProj_degenerate_counterexample :
    (xrProjIEEE Real.tan ⟨1 / 2, 1 / 2, 2 / 5, -(2 / 5)⟩).c0.x = FloatVal.infinite ∧
    (xrProjIEEE Real.tan ⟨1 / 2, 1 / 2, 2 / 5, -(2 / 5)⟩).c2.x = FloatVal.infinite := by
  have hpos : 0 < Real.tan (1 / 2) :=
    Real.tan_pos_of_pos_of_lt_pi_div_two (by norm_num) (by linarith [Real.pi_gt_three])
  have hne : Real.tan (1 / 2) + Real.tan (1 / 2) ≠ 0 := by linarith
  constructor
  · simp [xrProjIEEE, fdiv]
  · simp only [xrProjIEEE, fdiv, sub_self, if_true, if_neg hne]

/-- Claim C4 as amended: for every field of view with `angleRight = angleLeft` or
`angleUp = angleDown`, `xrProj` raises no condition; it performs the division by
zero and returns a matrix with an infinity on the diagonal.  When
`angleRight = angleLeft` the entry `[0][0]` is an infinity and `[2][0]` an
infinity or NaN; when `angleUp = angleDown` the entry `[1][1]` is an infinity and
`[2][1]` an infinity or NaN. -/
theorem xrProj_degenerate [LinearOrderedField K] (tanf : K → K) (f : XrFovf K)
    (h : f.angleRight = f.angleLeft ∨ f.angleUp = f.angleDown) :
    ((xrProjIEEE tanf f).c0.x = FloatVal.infinite ∨
      (xrProjIEEE tanf f).c1.y = FloatVal.infinite) ∧
    (f.angleRight = f.angleLeft →
      (xrProjIEEE tanf f).c0.x = FloatVal.infinite ∧
      ((xrProjIEEE tanf f).c2.x = FloatVal.infinite ∨
        (xrProjIEEE tanf f).c2.x = FloatVal.nan)) ∧
    (f.angleUp = f.angleDown →
      (xrProjIEEE tanf f).c1.y = FloatVal.infinite ∧
      ((xrProjIEEE tanf f).c2.y = FloatVal.infinite ∨
        (xrProjIEEE tanf f).c2.y = FloatVal.nan)) := by
  have hwidth : f.angleRight = f.angleLeft →
      (xrProjIEEE tanf f).c0.x = FloatVal.infinite ∧
      ((xrProjIEEE tanf f).c2.x = FloatVal.infinite ∨
        (xrProjIEEE tanf f).c2.x = FloatVal.nan) := by
    intro hr
    constructor
    · simp [xrProjIEEE, fdiv, hr]
    · by_cases h0 : tanf f.angleLeft + tanf f.angleLeft = 0
      · right
        simp only [xrProjIEEE, fdiv, hr, sub_self, if_true, if_pos h0]
      · left
        simp only [xrProjIEEE, fdiv, hr, sub_self, if_true, if_neg h0]
  have hheight : f.angleUp = f.angleDown →
      (xrProjIEEE tanf f).c1.y = FloatVal.infinite ∧
      ((xrProjIEEE tanf f).c2.y = FloatVal.infinite ∨
        (xrProjIEEE tanf f).c2.y = FloatVal.nan) := by
    intro hu
    constructor
    · simp [xrProjIEEE, fdiv, hu]
    · by_cases h0 : tanf f.angleDown + tanf f.angleDown = 0
      · right
        simp only [xrProjIEEE, fdiv, hu, sub_self, if_true, if_pos h0]
      · left
        simp only [xrProjIEEE, fdiv, hu, sub_self, if_true, if_neg h0]
  refine ⟨?_, hwidth, hheight⟩
  rcases h with h | h
  · exact Or.inl (hwidth h).1
  · exact Or.inr (hheight h).1

/-- Claim C4 as amended, at the field of view `(-0.5, 0.5, 0, 0)`, where
`angleUp = angleDown = 0`: the entry `[1][1]` of the returned matrix is an
infinity and the entry `[2][1]`, which is `0 / 0`, is NaN. -/
theorem xrProj_degenerate_witness :
    ((1 / 2 : ℝ) = -(1 / 2) ∨ (0 : ℝ) = 0) ∧
    (xrProjIEEE Real.tan ⟨-(1 / 2), 1 / 2, 0, 0⟩).c1.y = FloatVal.infinite ∧
    (xrProjIEEE Real.tan ⟨-(1 / 2), 1 / 2, 0, 0⟩).c2.y = FloatVal.nan := by
  have h := (xrProj_degenerate Real.tan ⟨-(1 / 2), 1 / 2, 0, 0⟩ (Or.inr rfl)).2.2 rfl
  refine ⟨Or.inr rfl, h.1, ?_⟩
  simp [xrProjIEEE, fdiv, Real.tan_zero]

/-! ## The view matrix -/

theorem inverseCofactors_mul [Field K] (m : Mat4 K) :
    (inverseCofactors m).mul m = Mat4.diag (inverseDot1 m) := by
  ext <;>
    simp only [inverseCofactors, inverseDot1, Mat4.mul, Mat4.diag, Vec4.add, Vec4.sub,
      Vec4.mul, Vec4.smul] <;> ring

theorem mul_inverseCofactors [Field K] (m : Mat4 K) :
    m.mul (inverseCofactors m) = Mat4.diag (inverseDot1 m) := by
  ext <;>
    simp only [inverseCofactors, inverseDot1, Mat4.mul, Mat4.diag, Vec4.add, Vec4.sub,
      Vec4.mul, Vec4.smul] <;> ring

theorem mat4_smul_mul [Field K] (a b : Mat4 K) (s : K) :
    (a.smul s).mul b = (a.mul b).smul s := by
  ext <;> simp only [Mat4.mul, Mat4.smul, Vec4.add, Vec4.smul] <;> ring

theorem mat4_mul_smul [Field K] (a b : Mat4 K) (s : K) :
    a.mul (b.smul s) = (a.mul b).smul s := by
  ext <;> simp only [Mat4.mul, Mat4.smul, Vec4.add, Vec4.smul] <;> ring

theorem mat4_diag_smul_inv [Field K] (d : K) (h : d ≠ 0) :
    (Mat4.diag d).smul (1 / d) = Mat4.one := by
  ext <;> simp [Mat4.diag, Mat4.smul, Vec4.smul, Mat4.one, h]

/-- GLM `inverse` is a left inverse wherever the determinant it computes is not
zero. -/
theorem inverse_mul_self [Field K] (m : Mat4 K) (h : inverseDot1 m ≠ 0) :
    (inverse m).mul m = Mat4.one := by
  rw [inverse, mat4_smul_mul, inverseCofactors_mul, mat4_diag_smul_inv _ h]

/-- GLM `inverse` is a right inverse wherever the determinant it computes is not
zero. -/
theorem mul_inverse_self [Field K] (m : Mat4 K) (h : inverseDot1 m ≠ 0) :
    m.mul (inverse m) = Mat4.one := by
  rw [inverse, mat4_mul_smul, mul_inverseCofactors, mat4_diag_smul_inv _ h]

/-- The determinant of the eye's world transform is 1 for a unit quaternion. -/
theorem inverseDot1_eyeWorld [Field K] (q : Quat K) (p : Vec3 K)
    (hq : q.w * q.w + q.x * q.x + q.y * q.y + q.z * q.z = 1) :
    inverseDot1 (eyeWorld q p) = 1 := by
  simp only [inverseCofactors, inverseDot1, eyeWorld, glm.translate, mat4_cast, Mat4.one,
    Mat4.mul, Mat4.diag, Vec4.add, Vec4.sub, Vec4.mul, Vec4.smul]
  linear_combination (4 * (q.x * q.x + q.y * q.y + q.z * q.z)) * hq

theorem viewMatrix_mul_eyeWorld [Field K] (q : Quat K) (p : Vec3 K)
    (hq : q.w * q.w + q.x * q.x + q.y * q.y + q.z * q.z = 1) :
    (viewMatrix q p).mul (eyeWorld q p) = Mat4.one :=
  inverse_mul_self _ (by rw [inverseDot1_eyeWorld q p hq]; exact one_ne_zero)

theorem eyeWorld_mul_viewMatrix [Field K] (q : Quat K) (p : Vec3 K)
    (hq : q.w * q.w + q.x * q.x + q.y * q.y + q.z * q.z = 1) :
    (eyeWorld q p).mul (viewMatrix q p) = Mat4.one :=
  mul_inverse_self _ (by rw [inverseDot1_eyeWorld q p hq]; exact one_ne_zero)

theorem mat4_mul_mulVec [Field K] (a b : Mat4 K) (v : Vec4 K) :
    (a.mul b).mulVec v = a.mulVec (b.mulVec v) := by
  ext <;> simp only [Mat4.mul, Mat4.mulVec, Vec4.add, Vec4.smul] <;> ring

theorem mat4_one_mulVec [Field K] (v : Vec4 K) : (Mat4.one : Mat4 K).mulVec v = v := by
  ext <;> simp [Mat4.one, Mat4.diag, Mat4.mulVec, Vec4.add, Vec4.smul]

/-- The eye's world transform sends the origin of eye space to `p`. -/
theorem eyeWorld_origin [Field K] (q : Quat K) (p : Vec3 K) :
    (eyeWorld q p).mulVec ⟨0, 0, 0, 1⟩ = ⟨p.x, p.y, p.z, 1⟩ := by
  ext <;> simp [eyeWorld, glm.translate, mat4_cast, Mat4.one, Mat4.diag, Mat4.mul, Mat4.mulVec,
    Vec4.add, Vec4.smul]

/-- Claim C2: for every unit quaternion `q` and position `p`, the view matrix `V`
of the eye loop is the inverse of `Translate(p) * Rotate(q)`, on both sides, and
it sends the eye's world position `p` to the origin of eye space. -/
theorem viewMatrix_is_inverse [LinearOrderedField K] (q : Quat K) (p : Vec3 K)
    (hq : q.w * q.w + q.x * q.x + q.y * q.y + q.z * q.z = 1) :
    (viewMatrix q p).mul ((translate Mat4.one p).mul (mat4_cast q)) = Mat4.one ∧
    ((translate Mat4.one p).mul (mat4_cast q)).mul (viewMatrix q p) = Mat4.one ∧
    (viewMatrix q p).mulVec ⟨p.x, p.y, p.z, 1⟩ = ⟨0, 0, 0, 1⟩ := by
  refine ⟨viewMatrix_mul_eyeWorld q p hq, eyeWorld_mul_viewMatrix q p hq, ?_⟩
  rw [← eyeWorld_origin q p, ← mat4_mul_mulVec, viewMatrix_mul_eyeWorld q p hq,
    mat4_one_mulVec]

/-- Claim C2 at the unit quaternion `(w, x, y, z) = (3/5, 0, 4/5, 0)` and the
position `(1, 2, 3)`. -/
theorem viewMatrix_is_inverse_witness :
    ((3 / 5 : ℚ) * (3 / 5) + 0 * 0 + (4 / 5) * (4 / 5) + 0 * 0 = 1) ∧
    (viewMatrix (⟨3 / 5, 0, 4 / 5, 0⟩ : Quat ℚ) ⟨1, 2, 3⟩).mul
      ((translate Mat4.one ⟨1, 2, 3⟩).mul (mat4_cast ⟨3 / 5, 0, 4 / 5, 0⟩)) = Mat4.one ∧
    ((translate Mat4.one ⟨1, 2, 3⟩).mul (mat4_cast (⟨3 / 5, 0, 4 / 5, 0⟩ : Quat ℚ))).mul
      (viewMatrix ⟨3 / 5, 0, 4 / 5, 0⟩ ⟨1, 2, 3⟩) = Mat4.one ∧
    (viewMatrix (⟨3 / 5, 0, 4 / 5, 0⟩ : Quat ℚ) ⟨1, 2, 3⟩).mulVec ⟨1, 2, 3, 1⟩ = ⟨0, 0, 0, 1⟩ :=
  ⟨by norm_num, viewMatrix_is_inverse ⟨3 / 5, 0, 4 / 5, 0⟩ ⟨1, 2, 3⟩ (by norm_num)⟩

/-- Claim C3, refuted as stated: for the unit quaternion `(w, x, y, z) =
(0, 1, 0, 0)` (half a turn about the x axis) and the position `(0, 1, 0)`, the
product `View(q, p) * (Rotate(q) * Translate(p))`, taken in the written order, is
not the identity: its entry `[3][1]` is 2. -/
theorem viewMatrix_rotate_translate_counterexample :
    ((0 : ℚ) * 0 + 1 * 1 + 0 * 0 + 0 * 0 = 1) ∧
    ((viewMatrix (⟨0, 1, 0, 0⟩ : Quat ℚ) ⟨0, 1, 0⟩).mul
      ((mat4_cast ⟨0, 1, 0, 0⟩).mul (translate Mat4.one ⟨0, 1, 0⟩))).c3.y = 2 ∧
    (viewMatrix (⟨0, 1, 0, 0⟩ : Quat ℚ) ⟨0, 1, 0⟩).mul
      ((mat4_cast ⟨0, 1, 0, 0⟩).mul (translate Mat4.one ⟨0, 1, 0⟩)) ≠ Mat4.one := by
  have h1 : ((viewMatrix (⟨0, 1, 0, 0⟩ : Quat ℚ) ⟨0, 1, 0⟩).mul
      ((mat4_cast ⟨0, 1, 0, 0⟩).mul (translate Mat4.one ⟨0, 1, 0⟩))).c3.y = 2 := by
    norm_num [viewMatrix, eyeWorld, inverse, inverseDot1, inverseCofactors, glm.translate,
      mat4_cast, Mat4.one, Mat4.diag, Mat4.mul, Mat4.smul, Vec4.add, Vec4.smul, Vec4.sub,
      Vec4.mul]
  refine ⟨by norm_num, h1, ?_⟩
  intro h
  rw [h] at h1
  norm_num [Mat4.one, Mat4.diag] at h1

/-- Claim C3 as amended: for every unit quaternion `q` and position `p`,
`View(q, p) * (Translate(p) * Rotate(q))` is the identity, the translation matrix
standing on the left of the rotation matrix. -/
theorem viewMatrix_translate_rotate [LinearOrderedField K] (q : Quat K) (p : Vec3 K)
    (hq : q.w * q.w + q.x * q.x + q.y * q.y + q.z * q.z = 1) :
    (viewMatrix q p).mul ((translate Mat4.one p).mul (mat4_cast q)) = Mat4.one :=
  viewMatrix_mul_eyeWorld q p hq

/-- Claim C3 as amended, at the input of its counterexample: the unit quaternion
`(0, 1, 0, 0)` and the position `(0, 1, 0)`. -/
theorem viewMatrix_translate_rotate_witness :
    ((0 : ℚ) * 0 + 1 * 1 + 0 * 0 + 0 * 0 = 1) ∧
    (viewMatrix (⟨0, 1, 0, 0⟩ : Quat ℚ) ⟨0, 1, 0⟩).mul
      ((translate Mat4.one ⟨0, 1, 0⟩).mul (mat4_cast ⟨0, 1, 0, 0⟩)) = Mat4.one :=
  ⟨by norm_num, viewMatrix_translate_rotate ⟨0, 1, 0, 0⟩ ⟨0, 1, 0⟩ (by norm_num)⟩

/-! ## The swapchain protocol -/

theorem monitor_run_append (m : Monitor) (cs ds : List (Call K)) :
    Monitor.run m (cs ++ ds) = (Monitor.run m cs).bind (fun m1 => Monitor.run m1 ds) := by
  induction cs generalizing m with
  | nil => rfl
  | cons c cs ih =>
    simp only [List.cons_append, Monitor.run]
    cases h : m.step c with
    | none => rfl
    | some m1 => exact ih m1

theorem monitor_step_held (m m1 : Monitor) (c : Call K) (h : m.step c = some m1) :
    m1.phase.held = m.phase.held + outstanding [c] := by
  obtain ⟨ph, e, t, d⟩ := m
  cases c <;> cases ph <;>
    simp [Monitor.step, outstanding, Call.isAcquire, Call.isRelease] at h ⊢ <;>
    first
      | (subst h; simp [Phase.held])
      | (obtain ⟨_, h⟩ := h; subst h; simp [Phase.held])

theorem outstanding_cons (c : Call K) (cs : List (Call K)) :
    outstanding (c :: cs) = outstanding [c] + outstanding cs := by
  simp only [outstanding, List.countP_cons, List.countP_nil]
  push_cast
  ring

theorem monitor_run_held (m m1 : Monitor) (cs : List (Call K))
    (h : Monitor.run m cs = some m1) :
    m1.phase.held = m.phase.held + outstanding cs := by
  induction cs generalizing m with
  | nil =>
    simp only [Monitor.run, Option.some.injEq] at h
    subst h
    simp [outstanding]
  | cons c cs ih =>
    simp only [Monitor.run] at h
    cases hs : m.step c with
    | none => rw [hs] at h; exact absurd h (by simp)
    | some m2 =>
      rw [hs] at h
      rw [ih m2 h, monitor_step_held m m2 c hs, outstanding_cons c cs]
      ring

theorem phase_held_bounds (p : Phase) : 0 ≤ p.held ∧ p.held ≤ 1 := by
  cases p <;> simp [Phase.held]

theorem monitor_run_split (m m1 : Monitor) (pre suf : List (Call K))
    (h : Monitor.run m (pre ++ suf) = some m1) :
    ∃ m2, Monitor.run m pre = some m2 ∧ Monitor.run m2 suf = some m1 := by
  rw [monitor_run_append] at h
  cases hp : Monitor.run m pre with
  | none => rw [hp] at h; exact absurd h (by simp)
  | some m2 => rw [hp] at h; exact ⟨m2, rfl, h⟩

theorem monitor_run_endFrame (m m1 : Monitor) (fei : XrFrameEndInfo K) (suf : List (Call K))
    (h : Monitor.run m (Call.xrEndFrame fei :: suf) = some m1) : m.phase = Phase.idle := by
  obtain ⟨ph, e, t, d⟩ := m
  cases ph <;> simp [Monitor.run, Monitor.step] at h ⊢

theorem monitor_eyeBody [Zero K] (s : Setup) (a : FrameAnswers K) (eye : Nat)
    (lviews : List (XrCompositionLayerProjectionView K)) (m : Monitor)
    (hp : m.phase = Phase.idle) (he : m.eye = eye) :
    Monitor.run m (eyeBody s a eye lviews).1
      = some ⟨Phase.idle, eye + 1, some (a.idx eye, eye), true⟩ := by
  obtain ⟨ph, e, t, d⟩ := m
  simp only at hp he
  subst hp he
  simp [eyeBody, Monitor.run, Monitor.step]

theorem monitor_renderEyesFrom [Zero K] (s : Setup) (a : FrameAnswers K) (n : Nat) :
    ∀ (eye : Nat) (lviews : List (XrCompositionLayerProjectionView K)) (m : Monitor),
      m.phase = Phase.idle → m.eye = eye →
      ∃ m1, Monitor.run m (renderEyesFrom s a n eye lviews).1 = some m1 ∧
        m1.phase = Phase.idle ∧ m1.eye = eye + n := by
  induction n with
  | zero =>
    intro eye lviews m hp he
    exact ⟨m, rfl, hp, he⟩
  | succ n ih =>
    intro eye lviews m hp he
    simp only [renderEyesFrom]
    rw [monitor_run_append, monitor_eyeBody s a eye lviews m hp he]
    obtain ⟨m1, h1, h2, h3⟩ := ih (eye + 1) (eyeBody s a eye lviews).2
      ⟨Phase.idle, eye + 1, some (a.idx eye, eye), true⟩ rfl rfl
    exact ⟨m1, h1, h2, by omega⟩

theorem frame_calls [Zero K] (s : Setup) (a : FrameAnswers K)
    (lviews : List (XrCompositionLayerProjectionView K)) :
    (frame s a lviews).1 =
      [Call.xrWaitFrame a.fs, Call.xrBeginFrame,
        Call.xrLocateViews a.fs.predictedDisplayTime a.outCount]
      ++ ((renderEyes s a lviews).1
      ++ [Call.xrEndFrame (frameEndInfo s a (renderEyes s a lviews).2)]) := by
  simp [frame]

theorem monitor_frame [Zero K] (s : Setup) (a : FrameAnswers K)
    (lviews : List (XrCompositionLayerProjectionView K)) (m : Monitor)
    (hp : m.phase = Phase.idle) :
    ∃ m1, Monitor.run m (frame s a lviews).1 = some m1 ∧ m1.phase = Phase.idle := by
  obtain ⟨m1, h1, h2, _⟩ := monitor_renderEyesFrom s a a.outCount 0 lviews
    { m with eye := 0 } hp rfl
  refine ⟨m1, ?_, h2⟩
  have h0 : Monitor.run m ([Call.xrWaitFrame a.fs, Call.xrBeginFrame,
      Call.xrLocateViews a.fs.predictedDisplayTime a.outCount] : List (Call K))
      = some { m with eye := 0 } := by
    simp [Monitor.run, Monitor.step, hp]
  have h3 : Monitor.run m1 [Call.xrEndFrame (frameEndInfo s a (renderEyes s a lviews).2)]
      = some m1 := by
    simp [Monitor.run, Monitor.step, h2]
  rw [frame_calls, monitor_run_append, h0, Option.some_bind, monitor_run_append]
  unfold renderEyes
  rw [h1, Option.some_bind]
  exact h3

theorem monitor_mainLoop [Zero K] (s : Setup) (answers : List (FrameAnswers K)) :
    ∀ (lviews : List (XrCompositionLayerProjectionView K)) (m : Monitor),
      m.phase = Phase.idle →
      ∃ m1, Monitor.run m (mainLoop s answers lviews) = some m1 ∧ m1.phase = Phase.idle := by
  induction answers with
  | nil => intro lviews m hp; exact ⟨m, rfl, hp⟩
  | cons a rest ih =>
    intro lviews m hp
    obtain ⟨m1, h1, h2⟩ := monitor_frame s a lviews m hp
    obtain ⟨m2, h3, h4⟩ := ih (frame s a lviews).2 m1 h2
    refine ⟨m2, ?_, h4⟩
    simp only [mainLoop]
    rw [monitor_run_append, h1]
    exact h3

/-- The monitor is not vacuous: it rejects a release or a wait without an
acquire, a second acquire before the release, a draw before the wait, and a
submission while an image is held. -/
theorem monitor_rejects_violations :
    Monitor.run Monitor.init ([Call.xrReleaseSwapchainImage] : List (Call ℚ)) = none ∧
    Monitor.run Monitor.init ([Call.xrWaitSwapchainImage] : List (Call ℚ)) = none ∧
    Monitor.run Monitor.init
      ([Call.xrAcquireSwapchainImage 0, Call.xrAcquireSwapchainImage 1] : List (Call ℚ))
      = none ∧
    Monitor.run Monitor.init
      ([Call.xrAcquireSwapchainImage 0, Call.glFramebufferTextureLayer 0 0,
        Call.glDrawElements] : List (Call ℚ)) = none ∧
    Monitor.run Monitor.init
      ([Call.xrAcquireSwapchainImage 0, Call.xrWaitSwapchainImage,
        Call.xrEndFrame ⟨0, 0, []⟩] : List (Call ℚ)) = none := by
  decide

/-- Claim C5: for every number of iterations of the main loop, every `outCount`
and every image index the runtime returns, the calls of the program follow the
acquire, wait, draw, release protocol (the monitor accepts them and ends with no
image held), the number of images acquired and not yet released is 0 or 1 after
every call, and it is 0 at every `xrEndFrame`. -/
theorem swapchain_protocol [Zero K] (s : Setup) (answers : List (FrameAnswers K)) :
    (∃ m, Monitor.run Monitor.init (run s answers) = some m ∧ m.phase = Phase.idle) ∧
    (∀ pre suf, run s answers = pre ++ suf → 0 ≤ outstanding pre ∧ outstanding pre ≤ 1) ∧
    (∀ pre fei suf, run s answers = pre ++ Call.xrEndFrame fei :: suf → outstanding pre = 0) := by
  obtain ⟨m, hm, hidle⟩ := monitor_mainLoop s answers (lviewsInit s) Monitor.init rfl
  refine ⟨⟨m, hm, hidle⟩, ?_, ?_⟩
  · intro pre suf h
    unfold run at h
    rw [h] at hm
    obtain ⟨m2, h2, _⟩ := monitor_run_split _ _ _ _ hm
    have := monitor_run_held _ _ _ h2
    have hb := phase_held_bounds m2.phase
    have h0 : (Monitor.init).phase.held = 0 := rfl
    rw [h0] at this
    omega
  · intro pre fei suf h
    unfold run at h
    rw [h] at hm
    obtain ⟨m2, h2, h3⟩ := monitor_run_split _ _ _ _ hm
    have := monitor_run_held _ _ _ h2
    have hi := monitor_run_endFrame _ _ _ _ h3
    rw [hi] at this
    have h0 : (Monitor.init).phase.held = 0 := rfl
    have h1 : Phase.idle.held = 0 := rfl
    rw [h0, h1] at this
    omega

/-- Claim C5 in one stereo frame, after its first four calls (`xrWaitFrame`,
`xrBeginFrame`, `xrLocateViews`, `xrAcquireSwapchainImage`): the number of images
held lies between 0 and 1. -/
theorem swapchain_protocol_witness :
    run stereoSetup [stereoAnswers]
      = (run stereoSetup [stereoAnswers]).take 4 ++ (run stereoSetup [stereoAnswers]).drop 4 ∧
    0 ≤ outstanding ((run stereoSetup [stereoAnswers]).take 4) ∧
    outstanding ((run stereoSetup [stereoAnswers]).take 4) ≤ 1 :=
  ⟨(List.take_append_drop 4 _).symm,
    (swapchain_protocol stereoSetup [stereoAnswers]).2.1 _ _ (List.take_append_drop 4 _).symm⟩

/-! ## Frame submission -/

theorem submissions_append (cs ds : List (Call K)) :
    submissions (cs ++ ds) = submissions cs ++ submissions ds := by
  induction cs with
  | nil => rfl
  | cons c cs ih => cases c <;> simp [submissions, ih]

theorem waits_append (cs ds : List (Call K)) :
    waits (cs ++ ds) = waits cs ++ waits ds := by
  induction cs with
  | nil => rfl
  | cons c cs ih => cases c <;> simp [waits, ih]

theorem pacing_run_append (p : Pacing) (cs ds : List (Call K)) :
    Pacing.run p (cs ++ ds) = (Pacing.run p cs).bind (fun p1 => Pacing.run p1 ds) := by
  induction cs generalizing p with
  | nil => rfl
  | cons c cs ih =>
    simp only [List.cons_append, Pacing.run]
    cases h : p.step c with
    | none => rfl
    | some p1 => exact ih p1

theorem renderEyesFrom_quiet [Zero K] (s : Setup) (a : FrameAnswers K) (n : Nat) :
    ∀ (eye : Nat) (lviews : List (XrCompositionLayerProjectionView K)),
      submissions (renderEyesFrom s a n eye lviews).1 = [] ∧
      waits (renderEyesFrom s a n eye lviews).1 = [] ∧
      ∀ p : Pacing, Pacing.run p (renderEyesFrom s a n eye lviews).1 = some p := by
  induction n with
  | zero => intro eye lviews; exact ⟨rfl, rfl, fun _ => rfl⟩
  | succ n ih =>
    intro eye lviews
    obtain ⟨h1, h2, h3⟩ := ih (eye + 1) (eyeBody s a eye lviews).2
    simp only [renderEyesFrom]
    refine ⟨?_, ?_, ?_⟩
    · rw [submissions_append, h1]; simp [eyeBody, submissions]
    · rw [waits_append, h2]; simp [eyeBody, waits]
    · intro p
      rw [pacing_run_append]
      have : Pacing.run p (eyeBody s a eye lviews).1 = some p := by
        cases p <;> simp [eyeBody, Pacing.run, Pacing.step]
      rw [this, Option.some_bind, h3]

theorem submissions_frame [Zero K] (s : Setup) (a : FrameAnswers K)
    (lviews : List (XrCompositionLayerProjectionView K)) :
    submissions (frame s a lviews).1 = [frameEndInfo s a (frame s a lviews).2] := by
  rw [frame_calls, submissions_append, submissions_append]
  unfold renderEyes
  rw [(renderEyesFrom_quiet s a a.outCount 0 lviews).1]
  simp [submissions, frame, renderEyes]

theorem waits_frame [Zero K] (s : Setup) (a : FrameAnswers K)
    (lviews : List (XrCompositionLayerProjectionView K)) :
    waits (frame s a lviews).1 = [a.fs] := by
  rw [frame_calls, waits_append, waits_append]
  unfold renderEyes
  rw [(renderEyesFrom_quiet s a a.outCount 0 lviews).2.1]
  simp [waits]

theorem pacing_frame [Zero K] (s : Setup) (a : FrameAnswers K)
    (lviews : List (XrCompositionLayerProjectionView K)) :
    Pacing.run Pacing.between (frame s a lviews).1 = some Pacing.between := by
  have h0 : Pacing.run Pacing.between ([Call.xrWaitFrame a.fs, Call.xrBeginFrame,
      Call.xrLocateViews a.fs.predictedDisplayTime a.outCount] : List (Call K))
      = some (Pacing.begun a.fs.predictedDisplayTime) := by
    simp [Pacing.run, Pacing.step]
  rw [frame_calls, pacing_run_append, h0, Option.some_bind, pacing_run_append]
  unfold renderEyes
  rw [(renderEyesFrom_quiet s a a.outCount 0 lviews).2.2, Option.some_bind]
  simp [Pacing.run, Pacing.step, frameEndInfo]

theorem mainLoop_observed [Zero K] (s : Setup) (answers : List (FrameAnswers K)) :
    ∀ lviews : List (XrCompositionLayerProjectionView K),
      Pacing.run Pacing.between (mainLoop s answers lviews) = some Pacing.between ∧
      waits (mainLoop s answers lviews) = answers.map (fun a => a.fs) ∧
      (submissions (mainLoop s answers lviews)).map (fun fei => fei.displayTime)
        = answers.map (fun a => a.fs.predictedDisplayTime) ∧
      ∀ fei ∈ submissions (mainLoop s answers lviews),
        fei.layerCount = 1 ∧ ∃ layer, fei.layers = [layer] := by
  induction answers with
  | nil =>
    intro lviews
    exact ⟨rfl, rfl, rfl, fun fei h => absurd h (by simp [mainLoop, submissions])⟩
  | cons a rest ih =>
    intro lviews
    obtain ⟨h1, h2, h3, h4⟩ := ih (frame s a lviews).2
    simp only [mainLoop]
    refine ⟨?_, ?_, ?_, ?_⟩
    · rw [pacing_run_append, pacing_frame, Option.some_bind, h1]
    · rw [waits_append, waits_frame, h2]; rfl
    · rw [submissions_append, submissions_frame, List.map_append, h3]; rfl
    · intro fei hfei
      rw [submissions_append, submissions_frame, List.mem_append] at hfei
      rcases hfei with h | h
      · rw [List.mem_singleton] at h
        subst h
        exact ⟨rfl, _, rfl⟩
      · exact h4 fei h

/-- The pacing automaton is not vacuous: it rejects a submission that carries the
display time of an earlier frame, a submission without `xrBeginFrame`, and a
frame that is waited for twice. -/
theorem pacing_rejects_violations :
    Pacing.run Pacing.between
      ([Call.xrWaitFrame ⟨7, true⟩, Call.xrBeginFrame, Call.xrEndFrame ⟨6, 1, [⟨0, 0, []⟩]⟩]
        : List (Call ℚ)) = none ∧
    Pacing.run Pacing.between
      ([Call.xrWaitFrame ⟨7, true⟩, Call.xrEndFrame ⟨7, 1, [⟨0, 0, []⟩]⟩] : List (Call ℚ))
      = none ∧
    Pacing.run Pacing.between
      ([Call.xrWaitFrame ⟨7, true⟩, Call.xrWaitFrame ⟨8, true⟩] : List (Call ℚ)) = none := by
  decide

/-- Claim C6: for every list of runtime answers, of length `N` (whatever their
`shouldRender` flags), the main loop performs exactly `N` submissions through
`xrEndFrame`; each comes after the `xrWaitFrame` and the `xrBeginFrame` of its
own iteration and carries one projection layer; the display time of the i-th
submission is the predicted display time that the i-th `xrWaitFrame` returned;
hence the submitted display times are non-decreasing when the predicted ones
are. -/
theorem frame_submissions [Zero K] (s : Setup) (answers : List (FrameAnswers K)) :
    (submissions (run s answers)).length = answers.length ∧
    Pacing.run Pacing.between (run s answers) = some Pacing.between ∧
    waits (run s answers) = answers.map (fun a => a.fs) ∧
    (submissions (run s answers)).map (fun fei => fei.displayTime)
      = (waits (run s answers)).map (fun fs => fs.predictedDisplayTime) ∧
    (∀ fei ∈ submissions (run s answers), fei.layerCount = 1 ∧ ∃ layer, fei.layers = [layer]) ∧
    (List.Pairwise (fun t u : Int => t ≤ u)
        ((waits (run s answers)).map (fun fs => fs.predictedDisplayTime)) →
      List.Pairwise (fun t u : Int => t ≤ u)
        ((submissions (run s answers)).map (fun fei => fei.displayTime))) := by
  obtain ⟨h1, h2, h3, h4⟩ := mainLoop_observed s answers (lviewsInit s)
  have h5 : (submissions (run s answers)).map (fun fei => fei.displayTime)
      = (waits (run s answers)).map (fun fs => fs.predictedDisplayTime) := by
    unfold run
    rw [h3, h2, List.map_map]
    rfl
  refine ⟨?_, h1, h2, h5, h4, ?_⟩
  · have := congrArg List.length h3
    simpa [run] using this
  · intro h
    rw [h5]
    exact h

/-- Claim C6 for two stereo frames whose predicted display times are 100 and
111: the submitted display times are non-decreasing. -/
theorem frame_submissions_witness :
    List.Pairwise (fun t u : Int => t ≤ u)
      ((waits (run stereoSetup [stereoAnswers, laterAnswers])).map
        (fun fs => fs.predictedDisplayTime)) ∧
    List.Pairwise (fun t u : Int => t ≤ u)
      ((submissions (run stereoSetup [stereoAnswers, laterAnswers])).map
        (fun fei => fei.displayTime)) :=
  ⟨by decide,
    (frame_submissions stereoSetup [stereoAnswers, laterAnswers]).2.2.2.2.2 (by decide)⟩

/-! ## The submitted layer views -/

theorem renderEyesFrom_lviews [Zero K] (s : Setup) (a : FrameAnswers K) (n : Nat) :
    ∀ (eye : Nat) (lviews : List (XrCompositionLayerProjectionView K)),
      eye + n ≤ lviews.length →
      (renderEyesFrom s a n eye lviews).2.length = lviews.length ∧
      (∀ e, eye ≤ e → e < eye + n →
        (renderEyesFrom s a n eye lviews).2[e]?
          = some (expectedLayerView s (a.views.getD e XrView.zero) e)) ∧
      (∀ e, e < eye → (renderEyesFrom s a n eye lviews).2[e]? = lviews[e]?) := by
  induction n with
  | zero =>
    intro eye lviews _
    exact ⟨rfl, fun e h1 h2 => absurd h2 (by omega), fun e _ => rfl⟩
  | succ n ih =>
    intro eye lviews hlen
    have hlen2 : (eyeBody s a eye lviews).2.length = lviews.length := by
      simp [eyeBody]
    obtain ⟨h1, h2, h3⟩ := ih (eye + 1) (eyeBody s a eye lviews).2 (by omega)
    simp only [renderEyesFrom]
    refine ⟨by rw [h1, hlen2], ?_, ?_⟩
    · intro e he1 he2
      rcases Nat.eq_or_lt_of_le he1 with h | h
      · subst h
        rw [h3 eye (by omega)]
        have : eye < lviews.length := by omega
        simp [eyeBody, expectedLayerView, this]
      · exact h2 e (by omega) (by omega)
    · intro e he
      rw [h3 e (by omega)]
      simp only [eyeBody]
      rw [List.getElem?_set_ne (by omega)]

theorem frame_lviews [Zero K] (s : Setup) (a : FrameAnswers K)
    (lviews : List (XrCompositionLayerProjectionView K)) (h : a.outCount ≤ lviews.length) :
    (frame s a lviews).2.length = lviews.length ∧
    ∀ e, e < a.outCount →
      (frame s a lviews).2[e]? = some (expectedLayerView s (a.views.getD e XrView.zero) e) := by
  obtain ⟨h1, h2, _⟩ := renderEyesFrom_lviews s a a.outCount 0 lviews (by omega)
  exact ⟨h1, fun e he => h2 e (by omega) (by omega)⟩

theorem take_map_index_eq_range (views : List (XrCompositionLayerProjectionView K)) (n : Nat)
    (h : ∀ e, e < n → ∃ lv, views[e]? = some lv ∧ lv.subImage.imageArrayIndex = e) :
    (views.take n).map (fun lv => lv.subImage.imageArrayIndex) = List.range n := by
  apply List.ext_getElem?
  intro e
  by_cases he : e < n
  · obtain ⟨lv, h1, h2⟩ := h e he
    simp [List.getElem?_take, he, h1, h2, List.getElem?_range]
  · simp [List.getElem?_take, he, List.getElem?_range]
    omega

theorem mainLoop_layers [Zero K] (s : Setup) (answers : List (FrameAnswers K)) :
    ∀ lviews : List (XrCompositionLayerProjectionView K),
      lviews.length = s.viewCount → (∀ a ∈ answers, a.outCount ≤ s.viewCount) →
      List.Forall₂
        (fun (a : FrameAnswers K) (fei : XrFrameEndInfo K) =>
          ∃ layer, fei.layers = [layer] ∧ layer.viewCount = a.outCount ∧
            ∀ e, e < a.outCount →
              layer.views[e]? = some (expectedLayerView s (a.views.getD e XrView.zero) e))
        answers (submissions (mainLoop s answers lviews)) := by
  induction answers with
  | nil => intro lviews _ _; exact List.Forall₂.nil
  | cons a rest ih =>
    intro lviews hlen hall
    have ha : a.outCount ≤ lviews.length := by
      rw [hlen]; exact hall a (List.mem_cons_self a rest)
    obtain ⟨h1, h2⟩ := frame_lviews s a lviews ha
    simp only [mainLoop]
    rw [submissions_append, submissions_frame]
    refine List.Forall₂.cons ⟨_, rfl, rfl, h2⟩ ?_
    exact ih (frame s a lviews).2 (by rw [h1, hlen])
      (fun b hb => hall b (List.mem_cons_of_mem a hb))

/-- Claim C7: when every frame locates at most `viewCount` views, the projection
layer that each frame submits has `viewCount` equal to the `outCount` of that
frame, and for every eye `e < outCount` its e-th view has array index `e`, the
rectangle of offset `(0, 0)` and extent `(W, H)`, and the pose and field of view
of the e-th located view; the array indices of the submitted views are
`0, ..., outCount - 1`, hence pairwise distinct. -/
theorem layer_views [Zero K] (s : Setup) (answers : List (FrameAnswers K))
    (h : ∀ a ∈ answers, a.outCount ≤ s.viewCount) :
    List.Forall₂
      (fun (a : FrameAnswers K) (fei : XrFrameEndInfo K) =>
        ∃ layer, fei.layers = [layer] ∧ layer.viewCount = a.outCount ∧
          (∀ e, e < a.outCount → ∃ lv, layer.views[e]? = some lv ∧
            lv.subImage.imageArrayIndex = e ∧
            lv.subImage.imageRect = ⟨⟨0, 0⟩, ⟨s.W, s.H⟩⟩ ∧
            lv.pose = (a.views.getD e XrView.zero).pose ∧
            lv.fov = (a.views.getD e XrView.zero).fov) ∧
          (layer.views.take layer.viewCount).map (fun lv => lv.subImage.imageArrayIndex)
            = List.range a.outCount)
      answers (submissions (run s answers)) := by
  have h0 := mainLoop_layers s answers (lviewsInit s) (by simp [lviewsInit]) h
  refine List.Forall₂.imp ?_ h0
  rintro a fei ⟨layer, h1, h2, h3⟩
  have h4 : ∀ e, e < a.outCount → ∃ lv, layer.views[e]? = some lv ∧
      lv.subImage.imageArrayIndex = e ∧
      lv.subImage.imageRect = ⟨⟨0, 0⟩, ⟨s.W, s.H⟩⟩ ∧
      lv.pose = (a.views.getD e XrView.zero).pose ∧
      lv.fov = (a.views.getD e XrView.zero).fov :=
    fun e he => ⟨_, h3 e he, rfl, rfl, rfl, rfl⟩
  refine ⟨layer, h1, h2, h4, ?_⟩
  rw [h2]
  exact take_map_index_eq_range layer.views a.outCount
    (fun e he => by
      obtain ⟨lv, h5, h6, _⟩ := h4 e he
      exact ⟨lv, h5, h6⟩)

/-- Claim C7 for one stereo frame. -/
theorem layer_views_witness :
    (∀ a ∈ [stereoAnswers], a.outCount ≤ stereoSetup.viewCount) ∧
    List.Forall₂
      (fun (a : FrameAnswers ℚ) (fei : XrFrameEndInfo ℚ) =>
        ∃ layer, fei.layers = [layer] ∧ layer.viewCount = a.outCount ∧
          (∀ e, e < a.outCount → ∃ lv, layer.views[e]? = some lv ∧
            lv.subImage.imageArrayIndex = e ∧
            lv.subImage.imageRect = ⟨⟨0, 0⟩, ⟨stereoSetup.W, stereoSetup.H⟩⟩ ∧
            lv.pose = (a.views.getD e XrView.zero).pose ∧
            lv.fov = (a.views.getD e XrView.zero).fov) ∧
          (layer.views.take layer.viewCount).map (fun lv => lv.subImage.imageArrayIndex)
            = List.range a.outCount)
      [stereoAnswers] (submissions (run stereoSetup [stereoAnswers])) :=
  ⟨by simp [stereoAnswers, stereoSetup],
   layer_views stereoSetup [stereoAnswers] (by simp [stereoAnswers, stereoSetup])⟩

/-- The colour targets of the eye loop: eye `e` is drawn into array layer `e` of
the image whose index the acquire of that eye returned. -/
theorem colourTargets_renderEyesFrom [Zero K] (s : Setup) (a : FrameAnswers K) (n : Nat) :
    ∀ (eye : Nat) (lviews : List (XrCompositionLayerProjectionView K)),
      colourTargets (renderEyesFrom s a n eye lviews).1
        = (List.range' eye n).map (fun e => (a.idx e, e)) := by
  induction n with
  | zero => intro eye lviews; rfl
  | succ n ih =>
    intro eye lviews
    simp only [renderEyesFrom, List.range'_succ, List.map_cons]
    rw [← ih (eye + 1) (eyeBody s a eye lviews).2]
    simp [eyeBody, colourTargets]

/-- Claim C10 fails on the code.  In the stereo frame where the runtime answers
the first acquire with image 0 and the second with image 1, eye 0 is drawn into
layer 0 of image 0 and eye 1 into layer 1 of image 1: two different images. -/
theorem eyes_render_to_different_images :
    colourTargets (frame stereoSetup stereoAnswers (lviewsInit stereoSetup)).1
      = [(0, 0), (1, 1)] := by
  decide

end KIEngine
